import Mathlib

/-!
Shallow embedding of the soft-Q-learning loss functions and related utilities of
`trl/trainer/soft_q_learning_trainer.py`, together with the pieces the trainers
use from elsewhere in the repository (`trl.core`'s masked reductions and the
DDPO loss), which are modelled from the specification where their source is not
available.

Tensors of shape `[B, T, K]` are embedded as functions `ℕ → ℕ → ℕ → ℝ` with
explicit shape parameters; out-of-range entries are never read by the
definitions below.  Floating-point arithmetic is modelled by exact real
arithmetic; `Tensor.detach` is modelled at the level of values (it does not
change any computed value, only gradient bookkeeping, which is outside the
embedding).
-/

/-- Python exception classes raised by the embedded code. -/
inductive PyError where
  | valueError
  | typeError
  | attributeError
  | notImplementedError
deriving DecidableEq

noncomputable section

/-- `x.logsumexp(dim=-1)` on one vocabulary slice of size `K`. -/
def logsumexp (K : ℕ) (x : ℕ → ℝ) : ℝ :=
  Real.log (∑ k ∈ Finset.range K, Real.exp (x k))

/-- `gather_2d_on_last_dim(tensor=logits, index=actions, shape=actions.shape)`:
`Q[i, t] = logits[i, t, actions[i, t]]`. -/
def gather_2d_on_last_dim (logits : ℕ → ℕ → ℕ → ℝ) (actions : ℕ → ℕ → ℕ) :
    ℕ → ℕ → ℝ :=
  fun i t => logits i t (actions i t)

/-- The column written by `X[torch.arange(B), sequence_length - 1] = ...` on a
tensor with `T` columns.  PyTorch wraps the index `-1` (which arises when
`sequence_length[i] = 0`) around to column `T - 1`; for `1 ≤ l ≤ T` the column
is the ordinary `l - 1`.  Both cases equal `(l + T - 1) % T`. -/
def termIdx (T l : ℕ) : ℕ :=
  (l + T - 1) % T

/-- Modelled from the spec: `mask_and_reduce` is imported from `trl.core`,
whose source is not available; §4.2 specifies the masked row value: position
`t` of row `i` is valid iff `t < sequence_length[i]`, invalid positions are
zeroed, and the row is summed over the time axis. -/
def maskedRowSum (T : ℕ) (sequence : ℕ → ℕ → ℝ) (sequence_length : ℕ → ℕ)
    (i : ℕ) : ℝ :=
  ∑ t ∈ Finset.range T, if t < sequence_length i then sequence i t else 0

/-- Modelled from the spec: the per-row reduction of `trl.core.mask_and_reduce`
(§4.2): sum over the time axis when `sum_over_timesteps`, else average over the
time axis when `average_across_timesteps`, dividing by `max(sequence_length, 1)`
to keep zero-length rows well defined. -/
def rowReduce (T : ℕ) (sequence : ℕ → ℕ → ℝ) (sequence_length : ℕ → ℕ)
    (average_across_timesteps sum_over_timesteps : Bool) (i : ℕ) : ℝ :=
  if sum_over_timesteps then maskedRowSum T sequence sequence_length i
  else if average_across_timesteps then
    maskedRowSum T sequence sequence_length i / ((max (sequence_length i) 1 : ℕ) : ℝ)
  else maskedRowSum T sequence sequence_length i

/-- Modelled from the spec: `trl.core.mask_and_reduce` (§4.2) — mask by
sequence length, reduce each row over the time axis, then average over the
batch axis. -/
def mask_and_reduce (B T : ℕ) (sequence : ℕ → ℕ → ℝ) (sequence_length : ℕ → ℕ)
    (average_across_timesteps sum_over_timesteps : Bool) : ℝ :=
  (∑ i ∈ Finset.range B,
      rowReduce T sequence sequence_length average_across_timesteps
        sum_over_timesteps i) / (B : ℝ)

/-- Modelled from the spec: `trl.core.masked_reverse_cumsum` (§4.2) — at each
valid position `t` of row `i`, the sum of the sequence over `[t, lengths[i])`,
and zero at positions `t ≥ lengths[i]` (the `Finset.Ico` is then empty). -/
def masked_reverse_cumsum (sequence : ℕ → ℕ → ℝ) (lengths : ℕ → ℕ) :
    ℕ → ℕ → ℝ :=
  fun i t => ∑ s ∈ Finset.Ico t (lengths i), sequence i s

/-- Value-level semantics of `Tensor.detach`: the same values; only gradient
flow (outside this embedding) is affected. -/
def detach (x : ℝ) : ℝ := x

/-- `soft_q_loss_with_sparse_rewards_0`: raw per-position losses
`F.mse_loss(V, V_, reduction="none") = (V - V_)^2` with
`V = logits.logsumexp(-1)` and `V_ = logits_.logsumexp(-1)`.  The unused
`actions`, `rewards` and `sequence_length` arguments of the Python function
are omitted. -/
def soft_q_loss_with_sparse_rewards_0 (K : ℕ)
    (logits logits_ : ℕ → ℕ → ℕ → ℝ) : ℕ → ℕ → ℝ :=
  fun i t => (logsumexp K (logits i t) - logsumexp K (logits_ i t)) ^ 2

/-- The target `Q_` of `soft_q_loss_with_sparse_rewards_1`: built from zeros by
`Q_[:, :-1] = V_[:, 1:]` and then overwritten at the terminal column by
`Q_[arange(B), sequence_length - 1] = rewards`. -/
def sql1_Q_target (T K : ℕ) (logits_ : ℕ → ℕ → ℕ → ℝ) (rewards : ℕ → ℝ)
    (sequence_length : ℕ → ℕ) : ℕ → ℕ → ℝ :=
  fun i t =>
    if t = termIdx T (sequence_length i) then rewards i
    else if t + 1 < T then logsumexp K (logits_ i (t + 1))
    else 0

/-- `soft_q_loss_with_sparse_rewards_1`: raw losses
`F.mse_loss(Q, Q_, reduction="none")` with `Q = gather(logits, actions)`. -/
def soft_q_loss_with_sparse_rewards_1 (T K : ℕ)
    (logits logits_ : ℕ → ℕ → ℕ → ℝ) (actions : ℕ → ℕ → ℕ)
    (rewards : ℕ → ℝ) (sequence_length : ℕ → ℕ) : ℕ → ℕ → ℝ :=
  fun i t =>
    (gather_2d_on_last_dim logits actions i t -
        sql1_Q_target T K logits_ rewards sequence_length i t) ^ 2

/-- The per-position advantage `A = Q - V` of the current network. -/
def sqlA (K : ℕ) (logits : ℕ → ℕ → ℕ → ℝ) (actions : ℕ → ℕ → ℕ) :
    ℕ → ℕ → ℝ :=
  fun i t => gather_2d_on_last_dim logits actions i t - logsumexp K (logits i t)

/-- The target advantage `A_` of `soft_q_loss_with_sparse_rewards_2`: built
from zeros by `A_[:, :-1] = V_[:, 1:] - V_[:, :-1]` and then overwritten at the
terminal column by `A_[arange(B), sequence_length - 1] = rewards - terminal_V_`
where `terminal_V_ = V_[arange(B), sequence_length - 1]`. -/
def sql2_A_target (T K : ℕ) (logits_ : ℕ → ℕ → ℕ → ℝ) (rewards : ℕ → ℝ)
    (sequence_length : ℕ → ℕ) : ℕ → ℕ → ℝ :=
  fun i t =>
    if t = termIdx T (sequence_length i) then
      rewards i - logsumexp K (logits_ i (termIdx T (sequence_length i)))
    else if t + 1 < T then
      logsumexp K (logits_ i (t + 1)) - logsumexp K (logits_ i t)
    else 0

/-- `soft_q_loss_with_sparse_rewards_2`: raw losses
`F.mse_loss(A, A_, reduction="none")`.  (The tensor `Q_` built alongside `A_`
in the Python function only feeds the log dictionary, which is not part of the
embedding.) -/
def soft_q_loss_with_sparse_rewards_2 (T K : ℕ)
    (logits logits_ : ℕ → ℕ → ℕ → ℝ) (actions : ℕ → ℕ → ℕ)
    (rewards : ℕ → ℝ) (sequence_length : ℕ → ℕ) : ℕ → ℕ → ℝ :=
  fun i t =>
    (sqlA K logits actions i t -
        sql2_A_target T K logits_ rewards sequence_length i t) ^ 2

/-- `soft_q_loss_with_sparse_rewards_3`: raw losses
`F.mse_loss(A2, rewards.view(-1, 1) - V_, reduction="none")` where
`A2 = masked_reverse_cumsum(A, sequence_length, -1)` and, when
`freeze_future_steps`, `A2` is rewritten as `(A2 - A).detach() + A`. -/
def soft_q_loss_with_sparse_rewards_3 (K : ℕ)
    (logits logits_ : ℕ → ℕ → ℕ → ℝ) (actions : ℕ → ℕ → ℕ)
    (rewards : ℕ → ℝ) (sequence_length : ℕ → ℕ)
    (freeze_future_steps : Bool) : ℕ → ℕ → ℝ :=
  fun i t =>
    let A := sqlA K logits actions
    let A2 := masked_reverse_cumsum A sequence_length
    let A2f :=
      if freeze_future_steps then fun j s => detach (A2 j s - A j s) + A j s
      else A2
    (A2f i t - (rewards i - logsumexp K (logits_ i t))) ^ 2

/-- `(logits + margin).max(dim=-1).values` over a vocabulary of size `K`,
meaningful (as in PyTorch, which rejects an empty reduction) for `K ≥ 1`. -/
def torchMax (K : ℕ) (f : ℕ → ℝ) : ℝ :=
  (List.range K).foldl (fun m a => max m (f a)) (f 0)

/-- `large_margin_classification_loss`: per-position raw losses
`max_a(logits[a] + margin_constant * 1[a ≠ expert_action]) - logits[expert_action]`
(the margin tensor is `margin_constant` everywhere except `0` at the expert
action). -/
def large_margin_classification_loss (K : ℕ) (logits : ℕ → ℕ → ℕ → ℝ)
    (expert_actions : ℕ → ℕ → ℕ) (margin_constant : ℝ) : ℕ → ℕ → ℝ :=
  fun i t =>
    torchMax K
        (fun a => logits i t a +
          if a = expert_actions i t then 0 else margin_constant) -
      logits i t (expert_actions i t)

/-- `soft_q_loss_with_sparse_rewards_2_2_reversed`: the V2 raw losses, combined
with the role-swapped V2 raw losses as
`coefficient * forward + (1 - coefficient) * reversed` when a coefficient is
given, plus `margin_coefficient * large_margin_classification_loss` when both
margin parameters are given. -/
def soft_q_loss_with_sparse_rewards_2_2_reversed (T K : ℕ)
    (logits logits_ : ℕ → ℕ → ℕ → ℝ) (actions : ℕ → ℕ → ℕ)
    (rewards : ℕ → ℝ) (sequence_length : ℕ → ℕ)
    (coefficient : Option ℝ)
    (margin_constant margin_coefficient : Option ℝ) : ℕ → ℕ → ℝ :=
  let raw_losses_2 :=
    soft_q_loss_with_sparse_rewards_2 T K logits logits_ actions rewards
      sequence_length
  let base :=
    match coefficient with
    | some c => fun i t =>
        c * raw_losses_2 i t +
          (1 - c) *
            soft_q_loss_with_sparse_rewards_2 T K logits_ logits actions rewards
              sequence_length i t
    | none => raw_losses_2
  match margin_constant, margin_coefficient with
  | some mc, some mco => fun i t =>
      base i t + mco * large_margin_classification_loss K logits actions mc i t
  | _, _ => base

/-- `soft_q_loss_with_sparse_rewards_3_3_reversed`: the V3 raw losses, combined
with the role-swapped V3 raw losses as
`coefficient * forward + (1 - coefficient) * reversed` when a coefficient is
given. -/
def soft_q_loss_with_sparse_rewards_3_3_reversed (K : ℕ)
    (logits logits_ : ℕ → ℕ → ℕ → ℝ) (actions : ℕ → ℕ → ℕ)
    (rewards : ℕ → ℝ) (sequence_length : ℕ → ℕ)
    (coefficient : Option ℝ) : ℕ → ℕ → ℝ :=
  let raw_losses_3 :=
    soft_q_loss_with_sparse_rewards_3 K logits logits_ actions rewards
      sequence_length false
  match coefficient with
  | some c => fun i t =>
      c * raw_losses_3 i t +
        (1 - c) *
          soft_q_loss_with_sparse_rewards_3 K logits_ logits actions rewards
            sequence_length false i t
  | none => raw_losses_3

/-- `soft_q_loss_with_sparse_rewards_2_2_reversed_3_3_reversed`: the average of
the V2-reversed and V3-reversed raw losses; the margin parameters are not
forwarded (they default to `None` in the inner call). -/
def soft_q_loss_with_sparse_rewards_2_2_reversed_3_3_reversed (T K : ℕ)
    (logits logits_ : ℕ → ℕ → ℕ → ℝ) (actions : ℕ → ℕ → ℕ)
    (rewards : ℕ → ℝ) (sequence_length : ℕ → ℕ)
    (coefficient : Option ℝ) : ℕ → ℕ → ℝ :=
  fun i t =>
    (soft_q_loss_with_sparse_rewards_2_2_reversed T K logits logits_ actions
        rewards sequence_length coefficient none none i t +
      soft_q_loss_with_sparse_rewards_3_3_reversed K logits logits_ actions
        rewards sequence_length coefficient i t) / 2

/-- The seven recognised values of `implementation`. -/
def sqlImplementations : List String :=
  ["v0", "v1", "v2", "v3", "v2_v2r", "v3_v3r", "v2_v2r_v3_v3r"]

/-- The raw-loss tensor selected by the `implementation` string (the function
assignment chain of `soft_q_loss_with_sparse_rewards`); the final branch is
unreachable because the dispatcher validates `implementation` first. -/
def sqlRawLosses (implementation : String) (T K : ℕ)
    (logits logits_ : ℕ → ℕ → ℕ → ℝ) (actions : ℕ → ℕ → ℕ)
    (rewards : ℕ → ℝ) (sequence_length : ℕ → ℕ)
    (coefficient : Option ℝ)
    (margin_constant margin_coefficient : Option ℝ) : ℕ → ℕ → ℝ :=
  if implementation = "v0" then
    soft_q_loss_with_sparse_rewards_0 K logits logits_
  else if implementation = "v1" then
    soft_q_loss_with_sparse_rewards_1 T K logits logits_ actions rewards
      sequence_length
  else if implementation = "v2" then
    soft_q_loss_with_sparse_rewards_2 T K logits logits_ actions rewards
      sequence_length
  else if implementation = "v3" then
    soft_q_loss_with_sparse_rewards_3 K logits logits_ actions rewards
      sequence_length false
  else if implementation = "v2_v2r" then
    soft_q_loss_with_sparse_rewards_2_2_reversed T K logits logits_ actions
      rewards sequence_length coefficient margin_constant margin_coefficient
  else if implementation = "v3_v3r" then
    soft_q_loss_with_sparse_rewards_3_3_reversed K logits logits_ actions
      rewards sequence_length coefficient
  else if implementation = "v2_v2r_v3_v3r" then
    soft_q_loss_with_sparse_rewards_2_2_reversed_3_3_reversed T K logits
      logits_ actions rewards sequence_length coefficient
  else
    fun _ _ => 0

/-- `soft_q_loss_with_sparse_rewards`: validate the `implementation` string,
the batch dimension of `rewards`, and the shape agreement of `logits` and
`logits_` (in the order of the Python function, each `raise ValueError`
becoming an `Except.error`), then reduce the selected raw losses with the
default reduction (sum over valid time, mean over batch).  The shapes of the
two logits tensors are passed explicitly as `(B, T, K)` and `(B2, T2, K2)`;
the `torch.is_tensor` / `rewards.ndim` checks are typed away by the embedding
(`rewards` is always a rank-1 tensor of length `Br`). -/
def soft_q_loss_with_sparse_rewards (implementation : String)
    (B T K : ℕ) (logits : ℕ → ℕ → ℕ → ℝ)
    (B2 T2 K2 : ℕ) (logits_ : ℕ → ℕ → ℕ → ℝ)
    (actions : ℕ → ℕ → ℕ) (Br : ℕ) (rewards : ℕ → ℝ)
    (sequence_length : ℕ → ℕ)
    (coefficient : Option ℝ)
    (margin_constant margin_coefficient : Option ℝ) : Except PyError ℝ :=
  if implementation ∉ sqlImplementations then
    Except.error PyError.valueError
  else if B ≠ Br then
    Except.error PyError.valueError
  else if ¬(B = B2 ∧ T = T2 ∧ K = K2) then
    Except.error PyError.valueError
  else
    Except.ok
      (mask_and_reduce B T
        (sqlRawLosses implementation T K logits logits_ actions rewards
          sequence_length coefficient margin_constant margin_coefficient)
        sequence_length false true)

/-- `clip(x, lo, hi)` on reals. -/
def clampReal (x lo hi : ℝ) : ℝ := max lo (min x hi)

/-- Modelled from the spec: `DDPOTrainer.loss` is not in the available source
(only its test is); §4.3 specifies
`loss = mean(max(-advantage * ratio, -advantage * clip(ratio, 1 - clip_range, 1 + clip_range)))`
over a batch of `n` trajectories. -/
def ddpo_loss (n : ℕ) (advantages : ℕ → ℝ) (clip_range : ℝ)
    (ratios : ℕ → ℝ) : ℝ :=
  (∑ i ∈ Finset.range n,
      max (-(advantages i) * ratios i)
        (-(advantages i) *
          clampReal (ratios i) (1 - clip_range) (1 + clip_range))) / (n : ℝ)

/-- The attributes of `SoftQLearningTrainer` relevant to target-network
synchronisation, with the model and target model abstracted to their flat
parameter vectors.  An attribute that Python code may read without it ever
having been assigned is an `Option`, `none` meaning "never assigned" (reading
it raises `AttributeError`). -/
structure SoftQLearningTrainerState where
  target_sync_method : Option String
  target_learning_rate : ℝ
  target_sync_steps : Option ℕ
  modelParams : List ℝ
  targetParams : List ℝ

/-- The synchronisation-relevant part of `SoftQLearningTrainer.__init__`: it
stores `target_update_method` as `self.target_sync_method`, stores the target
learning rate, and deep-copies the model into the target when no target model
is passed.  No statement of `__init__` (which also never calls a base-class
initialiser) assigns `self.target_sync_steps`, so that attribute is `none`. -/
def SoftQLearningTrainer_init (modelParams : List ℝ)
    (target_model : Option (List ℝ)) (target_update_method : Option String)
    (target_learning_rate : ℝ) : SoftQLearningTrainerState :=
  { target_sync_method := target_update_method
    target_learning_rate := target_learning_rate
    target_sync_steps := none
    modelParams := modelParams
    targetParams := target_model.getD modelParams }

/-- `SoftQLearningTrainer.sync_target_model`: `"copy"` overwrites the target
parameters with the model parameters; `"polyak"` sets each target parameter to
`(1 - lr) * target + lr * model`; any other sync type raises `ValueError`. -/
def sync_target_model (s : SoftQLearningTrainerState) (sync_type : String) :
    Except PyError SoftQLearningTrainerState :=
  if sync_type = "copy" then
    Except.ok { s with targetParams := s.modelParams }
  else if sync_type = "polyak" then
    let newTarget := (s.targetParams.zip s.modelParams).map
      (fun p => (1 - s.target_learning_rate) * p.1 +
        s.target_learning_rate * p.2)
    Except.ok { s with targetParams := newTarget }
  else Except.error PyError.valueError

/-- The target-synchronisation prefix of `SoftQLearningTrainer.step`:
`polyak` syncs every step; otherwise, when the sync method is `"copy"`, the
code evaluates `step % self.target_sync_steps == 0`, which first reads the
`target_sync_steps` attribute — raising `AttributeError` when it was never
assigned — and hard-copies on a hit. -/
def step_target_sync (s : SoftQLearningTrainerState) (step : ℕ) :
    Except PyError SoftQLearningTrainerState :=
  if s.target_sync_method = some "polyak" then
    sync_target_model s "polyak"
  else if s.target_sync_method = some "copy" then
    match s.target_sync_steps with
    | none => Except.error PyError.attributeError
    | some k =>
      if step % k = 0 then sync_target_model s "copy" else Except.ok s
  else Except.ok s

end

/-- A tensor storage heap: the contents of storage `id`, a flat list of
scalar entries. -/
abbrev Heap : Type := ℕ → List ℝ

mutual
/-- A nested Python object as traversed by `nested_tensor_operation`: dicts
with string keys, lists, tensors (references into a storage heap), `int`,
`float`, `str`, `bool` scalars and `None`.  (Python tuples, which the
traversal converts to lists, are not part of claim C9 and are not modelled;
any other node type raises `TypeError` in the source and has no constructor
here.) -/
inductive PyObj where
  | tensor (id : ℕ)
  | intVal (n : ℤ)
  | floatVal (x : ℝ)
  | strVal (s : String)
  | boolVal (b : Bool)
  | noneVal
  | listVal (xs : PyList)
  | dictVal (xs : PyDict)
/-- A Python list of nested objects. -/
inductive PyList where
  | nil
  | cons (head : PyObj) (tail : PyList)
/-- A Python dict with string keys, in insertion order. -/
inductive PyDict where
  | dnil
  | dcons (key : String) (val : PyObj) (tail : PyDict)
end

mutual
/-- `nested_tensor_operation` with the tensor operation
`X.detach().clone()` of `nested_detach_and_clone`: rebuild the tree, and for
every tensor allocate a fresh storage at the allocation counter `c` holding a
copy of the source storage's contents.  Scalars, strings, booleans and `None`
are returned as they are; lists and dicts are rebuilt recursively, threading
the heap and the counter left to right. -/
def cloneObj : PyObj → Heap → ℕ → PyObj × Heap × ℕ
  | PyObj.tensor id, h, c => (PyObj.tensor c, Function.update h c (h id), c + 1)
  | PyObj.intVal n, h, c => (PyObj.intVal n, h, c)
  | PyObj.floatVal x, h, c => (PyObj.floatVal x, h, c)
  | PyObj.strVal s, h, c => (PyObj.strVal s, h, c)
  | PyObj.boolVal b, h, c => (PyObj.boolVal b, h, c)
  | PyObj.noneVal, h, c => (PyObj.noneVal, h, c)
  | PyObj.listVal xs, h, c =>
    let r := cloneList xs h c
    (PyObj.listVal r.1, r.2.1, r.2.2)
  | PyObj.dictVal xs, h, c =>
    let r := cloneDict xs h c
    (PyObj.dictVal r.1, r.2.1, r.2.2)
/-- `cloneObj` mapped over a Python list. -/
def cloneList : PyList → Heap → ℕ → PyList × Heap × ℕ
  | PyList.nil, h, c => (PyList.nil, h, c)
  | PyList.cons x xs, h, c =>
    let r1 := cloneObj x h c
    let r2 := cloneList xs r1.2.1 r1.2.2
    (PyList.cons r1.1 r2.1, r2.2.1, r2.2.2)
/-- `cloneObj` mapped over the values of a Python dict, keys unchanged. -/
def cloneDict : PyDict → Heap → ℕ → PyDict × Heap × ℕ
  | PyDict.dnil, h, c => (PyDict.dnil, h, c)
  | PyDict.dcons k v xs, h, c =>
    let r1 := cloneObj v h c
    let r2 := cloneDict xs r1.2.1 r1.2.2
    (PyDict.dcons k r1.1 r2.1, r2.2.1, r2.2.2)
end

/-- `nested_detach_and_clone(obj, to_cpu, to_numpy)`: validate the flags
(`to_numpy` requires `to_cpu`, else `ValueError`) and apply the cloning
traversal; the cpu/numpy moves preserve values and are otherwise outside the
embedding. -/
def nested_detach_and_clone (obj : PyObj) (h : Heap) (c : ℕ)
    (to_cpu to_numpy : Bool) : Except PyError (PyObj × Heap × ℕ) :=
  if to_cpu = false ∧ to_numpy = true then Except.error PyError.valueError
  else Except.ok (cloneObj obj h c)

mutual
/-- The observable value of a nested Python object: the same tree with every
tensor reference replaced by the contents of its storage. -/
inductive ValObj where
  | tensor (v : List ℝ)
  | intVal (n : ℤ)
  | floatVal (x : ℝ)
  | strVal (s : String)
  | boolVal (b : Bool)
  | noneVal
  | listVal (xs : ValList)
  | dictVal (xs : ValDict)
/-- Observable values of a Python list. -/
inductive ValList where
  | nil
  | cons (head : ValObj) (tail : ValList)
/-- Observable values of a Python dict. -/
inductive ValDict where
  | dnil
  | dcons (key : String) (val : ValObj) (tail : ValDict)
end

mutual
/-- Read a nested object through a heap, yielding its observable value tree
(shape, keys, and values). -/
def readObj : PyObj → Heap → ValObj
  | PyObj.tensor id, h => ValObj.tensor (h id)
  | PyObj.intVal n, _ => ValObj.intVal n
  | PyObj.floatVal x, _ => ValObj.floatVal x
  | PyObj.strVal s, _ => ValObj.strVal s
  | PyObj.boolVal b, _ => ValObj.boolVal b
  | PyObj.noneVal, _ => ValObj.noneVal
  | PyObj.listVal xs, h => ValObj.listVal (readList xs h)
  | PyObj.dictVal xs, h => ValObj.dictVal (readDict xs h)
/-- `readObj` over a Python list. -/
def readList : PyList → Heap → ValList
  | PyList.nil, _ => ValList.nil
  | PyList.cons x xs, h => ValList.cons (readObj x h) (readList xs h)
/-- `readObj` over a Python dict. -/
def readDict : PyDict → Heap → ValDict
  | PyDict.dnil, _ => ValDict.dnil
  | PyDict.dcons k v xs, h => ValDict.dcons k (readObj v h) (readDict xs h)
end

mutual
/-- Every tensor storage id in the tree is `< c`. -/
def idsBelowObj : PyObj → ℕ → Bool
  | PyObj.tensor id, c => decide (id < c)
  | PyObj.listVal xs, c => idsBelowList xs c
  | PyObj.dictVal xs, c => idsBelowDict xs c
  | _, _ => true
/-- `idsBelowObj` over a Python list. -/
def idsBelowList : PyList → ℕ → Bool
  | PyList.nil, _ => true
  | PyList.cons x xs, c => idsBelowObj x c && idsBelowList xs c
/-- `idsBelowObj` over a Python dict. -/
def idsBelowDict : PyDict → ℕ → Bool
  | PyDict.dnil, _ => true
  | PyDict.dcons _ v xs, c => idsBelowObj v c && idsBelowDict xs c
end

mutual
/-- The tree holds a tensor whose storage id is `j`. -/
def usesIdObj : PyObj → ℕ → Bool
  | PyObj.tensor id, j => decide (id = j)
  | PyObj.listVal xs, j => usesIdList xs j
  | PyObj.dictVal xs, j => usesIdDict xs j
  | _, _ => false
/-- `usesIdObj` over a Python list. -/
def usesIdList : PyList → ℕ → Bool
  | PyList.nil, _ => false
  | PyList.cons x xs, j => usesIdObj x j || usesIdList xs j
/-- `usesIdObj` over a Python dict. -/
def usesIdDict : PyDict → ℕ → Bool
  | PyDict.dnil, _ => false
  | PyDict.dcons _ v xs, j => usesIdObj v j || usesIdDict xs j
end

/-- C1: for every batch and every row `i` with `sequence_length[i] = 1`, the V2
target advantage `A_` at position 0 of row `i` equals
`rewards[i] - logsumexp(logits_[i, 0, :])` exactly — the terminal overwrite
replaces any bootstrapped shifted-V term; in particular, for a single-row batch
with `sequence_length = [1]`, the target advantage at position 0 is
`reward - V_target[0]`. -/
theorem sql2_terminal_target_advantage (T K : ℕ) (logits_ : ℕ → ℕ → ℕ → ℝ)
    (rewards : ℕ → ℝ) (sequence_length : ℕ → ℕ) (i : ℕ)
    (hT : 0 < T) (hlen : sequence_length i = 1) :
    sql2_A_target T K logits_ rewards sequence_length i 0 =
      rewards i - logsumexp K (logits_ i 0) := by
  have hidx : termIdx T (sequence_length i) = 0 := by
    have h1 : 1 + T - 1 = T := by omega
    simp [termIdx, hlen, h1]
  simp [sql2_A_target, hidx]

/-- Witness for C1 at a concrete batch: `B = 1`, `T = 2`, `K = 1`,
`sequence_length = [1]`, reward `5`, all target logits `0`. -/
theorem sql2_terminal_target_advantage_witness :
    (0 < 2 ∧ (fun _ : ℕ => 1) 0 = 1) ∧
      sql2_A_target 2 1 (fun _ _ _ => 0) (fun _ => 5) (fun _ => 1) 0 0 =
        5 - logsumexp 1 (fun _ => 0) := by
  constructor
  · exact ⟨by decide, rfl⟩
  · exact sql2_terminal_target_advantage 2 1 (fun _ _ _ => 0) (fun _ => 5)
      (fun _ => 1) 0 (by decide) rfl

/-- C3: with a non-`None` coefficient `c`, the `v2_v2r` and `v3_v3r` variants
return raw losses `c * loss_forward + (1 - c) * loss_reversed`, the reversed
loss being the base loss with the roles of `logits` and `logits_` swapped; with
coefficient `None` they return the forward loss alone. -/
theorem sql_reversed_symmetrization (T K : ℕ)
    (logits logits_ : ℕ → ℕ → ℕ → ℝ) (actions : ℕ → ℕ → ℕ)
    (rewards : ℕ → ℝ) (sequence_length : ℕ → ℕ) (c : ℝ) (i t : ℕ) :
    (soft_q_loss_with_sparse_rewards_2_2_reversed T K logits logits_ actions
        rewards sequence_length (some c) none none i t =
      c * soft_q_loss_with_sparse_rewards_2 T K logits logits_ actions rewards
          sequence_length i t +
        (1 - c) * soft_q_loss_with_sparse_rewards_2 T K logits_ logits actions
          rewards sequence_length i t) ∧
    (soft_q_loss_with_sparse_rewards_3_3_reversed K logits logits_ actions
        rewards sequence_length (some c) i t =
      c * soft_q_loss_with_sparse_rewards_3 K logits logits_ actions rewards
          sequence_length false i t +
        (1 - c) * soft_q_loss_with_sparse_rewards_3 K logits_ logits actions
          rewards sequence_length false i t) ∧
    (soft_q_loss_with_sparse_rewards_2_2_reversed T K logits logits_ actions
        rewards sequence_length none none none i t =
      soft_q_loss_with_sparse_rewards_2 T K logits logits_ actions rewards
        sequence_length i t) ∧
    (soft_q_loss_with_sparse_rewards_3_3_reversed K logits logits_ actions
        rewards sequence_length none i t =
      soft_q_loss_with_sparse_rewards_3 K logits logits_ actions rewards
        sequence_length false i t) :=
  ⟨rfl, rfl, rfl, rfl⟩

/-- C4: the V0 variant applied through the dispatcher with `logits_target`
equal to `logits` yields a loss of exactly `0`, for every input. -/
theorem sql0_equal_logits_zero_loss (B T K : ℕ) (logits : ℕ → ℕ → ℕ → ℝ)
    (actions : ℕ → ℕ → ℕ) (rewards : ℕ → ℝ) (sequence_length : ℕ → ℕ)
    (coefficient margin_constant margin_coefficient : Option ℝ) :
    soft_q_loss_with_sparse_rewards "v0" B T K logits B T K logits actions B
        rewards sequence_length coefficient margin_constant
        margin_coefficient = Except.ok 0 := by
  have hraw : sqlRawLosses "v0" T K logits logits actions rewards
      sequence_length coefficient margin_constant margin_coefficient =
      fun _ _ => 0 := by
    funext i t
    simp [sqlRawLosses, soft_q_loss_with_sparse_rewards_0]
  simp [soft_q_loss_with_sparse_rewards, sqlImplementations, hraw,
    mask_and_reduce, rowReduce, maskedRowSum]

/-- C6: the DDPO loss at `advantage = [-1.0]`, `clip_range = 1e-4`,
`ratio = [1.0]` equals exactly `1.0` (the regression anchor of
`test_ddpo_trainer.test_loss`). -/
theorem ddpo_loss_regression_anchor :
    ddpo_loss 1 (fun _ => -1) (1 / 10000) (fun _ => 1) = 1 := by
  simp only [ddpo_loss, clampReal, Finset.sum_range_one]
  norm_num [min_def, max_def]

/-- C10: `soft_q_loss_with_sparse_rewards_3` returns the same raw loss values
with `freeze_future_steps = True` as with `freeze_future_steps = False`: the
rewrite `A2 = (A2 - A).detach() + A` changes only gradient flow, never the
computed value. -/
theorem sql3_freeze_future_steps_same_values (K : ℕ)
    (logits logits_ : ℕ → ℕ → ℕ → ℝ) (actions : ℕ → ℕ → ℕ)
    (rewards : ℕ → ℝ) (sequence_length : ℕ → ℕ) :
    soft_q_loss_with_sparse_rewards_3 K logits logits_ actions rewards
        sequence_length true =
      soft_q_loss_with_sparse_rewards_3 K logits logits_ actions rewards
        sequence_length false := by
  funext i t
  simp [soft_q_loss_with_sparse_rewards_3, detach]

/-- C2: any call of the dispatcher whose `implementation` string is not one of
the seven identifiers, or whose `logits` and `logits_` shapes differ, fails
with `ValueError` before any loss tensor is computed (the error is produced by
the validation prefix of `soft_q_loss_with_sparse_rewards`; no raw-loss term
occurs on the error paths). -/
theorem sql_dispatcher_validation (implementation : String)
    (B T K : ℕ) (logits : ℕ → ℕ → ℕ → ℝ)
    (B2 T2 K2 : ℕ) (logits_ : ℕ → ℕ → ℕ → ℝ)
    (actions : ℕ → ℕ → ℕ) (Br : ℕ) (rewards : ℕ → ℝ)
    (sequence_length : ℕ → ℕ)
    (coefficient margin_constant margin_coefficient : Option ℝ)
    (h : implementation ∉ sqlImplementations ∨ ¬(B = B2 ∧ T = T2 ∧ K = K2)) :
    soft_q_loss_with_sparse_rewards implementation B T K logits B2 T2 K2
        logits_ actions Br rewards sequence_length coefficient margin_constant
        margin_coefficient = Except.error PyError.valueError := by
  rcases h with h | h
  · simp [soft_q_loss_with_sparse_rewards, h]
  · unfold soft_q_loss_with_sparse_rewards
    by_cases h1 : implementation ∉ sqlImplementations
    · rw [if_pos h1]
    · rw [if_neg h1]
      by_cases h2 : B ≠ Br
      · rw [if_pos h2]
      · rw [if_neg h2, if_pos h]

/-- Witness for C2: the unknown identifier `"v99"` on a tiny batch fails with
`ValueError`. -/
theorem sql_dispatcher_validation_witness :
    (("v99" : String) ∉ sqlImplementations ∨
        ¬((1 : ℕ) = 1 ∧ (1 : ℕ) = 1 ∧ (1 : ℕ) = 1)) ∧
      soft_q_loss_with_sparse_rewards "v99" 1 1 1 (fun _ _ _ => 0) 1 1 1
          (fun _ _ _ => 0) (fun _ _ => 0) 1 (fun _ => 0) (fun _ => 0)
          none none none = Except.error PyError.valueError := by
  constructor
  · exact Or.inl (by decide)
  · exact sql_dispatcher_validation "v99" 1 1 1 (fun _ _ _ => 0) 1 1 1
      (fun _ _ _ => 0) (fun _ _ => 0) 1 (fun _ => 0) (fun _ => 0)
      none none none (Or.inl (by decide))

/-- C8: with a row `i` of `sequence_length[i] = 0`, every recognised soft-Q
loss variant still computes a value (the dispatcher returns `Except.ok` of the
masked reduction of its raw losses — in particular the terminal write lands on
the wrapped column `termIdx` instead of raising), and row `i` contributes
exactly zero to the reduction: its row term is `0` both in the default
sum-over-time mode and in the average-over-time (`loss-normalized`) mode. -/
theorem sql_zero_length_row_zero_contribution (implementation : String)
    (B T K : ℕ) (logits logits_ : ℕ → ℕ → ℕ → ℝ) (actions : ℕ → ℕ → ℕ)
    (rewards : ℕ → ℝ) (sequence_length : ℕ → ℕ)
    (coefficient margin_constant margin_coefficient : Option ℝ) (i : ℕ)
    (himpl : implementation ∈ sqlImplementations)
    (hlen : sequence_length i = 0) :
    (soft_q_loss_with_sparse_rewards implementation B T K logits B T K logits_
        actions B rewards sequence_length coefficient margin_constant
        margin_coefficient =
      Except.ok
        (mask_and_reduce B T
          (sqlRawLosses implementation T K logits logits_ actions rewards
            sequence_length coefficient margin_constant margin_coefficient)
          sequence_length false true)) ∧
    rowReduce T
        (sqlRawLosses implementation T K logits logits_ actions rewards
          sequence_length coefficient margin_constant margin_coefficient)
        sequence_length false true i = 0 ∧
    rowReduce T
        (sqlRawLosses implementation T K logits logits_ actions rewards
          sequence_length coefficient margin_constant margin_coefficient)
        sequence_length true false i = 0 := by
  refine ⟨by simp [soft_q_loss_with_sparse_rewards, himpl], ?_, ?_⟩
  · simp [rowReduce, maskedRowSum, hlen]
  · simp [rowReduce, maskedRowSum, hlen]

/-- Witness for C8 at a concrete batch: variant `"v1"`, `B = T = K = 1`,
`sequence_length = [0]`. -/
theorem sql_zero_length_row_zero_contribution_witness :
    (("v1" : String) ∈ sqlImplementations ∧ (fun _ : ℕ => 0) 0 = 0) ∧
      rowReduce 1
          (sqlRawLosses "v1" 1 1 (fun _ _ _ => 0) (fun _ _ _ => 0)
            (fun _ _ => 0) (fun _ => 3) (fun _ => 0) none none none)
          (fun _ => 0) false true 0 = 0 := by
  constructor
  · exact ⟨by decide, rfl⟩
  · exact (sql_zero_length_row_zero_contribution "v1" 1 1 1 (fun _ _ _ => 0)
      (fun _ _ _ => 0) (fun _ _ => 0) (fun _ => 3) (fun _ => 0)
      none none none 0 (by decide) rfl).2.1

theorem foldl_max_init_le (l : List ℝ) (a : ℝ) : a ≤ l.foldl max a := by
  induction l generalizing a with
  | nil => exact le_refl a
  | cons x xs ih => exact le_trans (le_max_left a x) (ih (max a x))

theorem foldl_max_of_mem (l : List ℝ) (a x : ℝ) (hx : x ∈ l) :
    x ≤ l.foldl max a := by
  induction l generalizing a with
  | nil => cases hx
  | cons y ys ih =>
    simp only [List.foldl_cons]
    rcases List.mem_cons.mp hx with h | h
    · subst h
      exact le_trans (le_max_right a x) (foldl_max_init_le ys (max a x))
    · exact ih (max a y) h

theorem foldl_max_le (l : List ℝ) (a b : ℝ) (ha : a ≤ b)
    (hl : ∀ x ∈ l, x ≤ b) : l.foldl max a ≤ b := by
  induction l generalizing a with
  | nil => exact ha
  | cons y ys ih =>
    simp only [List.foldl_cons]
    exact ih (max a y) (max_le ha (hl y (List.mem_cons_self y ys)))
      (fun x hx => hl x (List.mem_cons_of_mem y hx))

/-- `torchMax` is the maximum of `f` over `{0, ..., K-1}`: it equals `f e` for
any `e < K` at which `f` is maximal. -/
theorem torchMax_eq_of_max (K : ℕ) (f : ℕ → ℝ) (e : ℕ) (he : e < K)
    (hmax : ∀ a, a < K → f a ≤ f e) : torchMax K f = f e := by
  have hrw : torchMax K f = ((List.range K).map f).foldl max (f 0) := by
    rw [torchMax, List.foldl_map]
  rw [hrw]
  apply le_antisymm
  · refine foldl_max_le _ _ _ (hmax 0 (Nat.lt_of_le_of_lt (Nat.zero_le e) he)) ?_
    intro x hx
    rcases List.mem_map.mp hx with ⟨a, ha, hfa⟩
    exact hfa ▸ hmax a (List.mem_range.mp ha)
  · exact foldl_max_of_mem _ _ _ (List.mem_map.mpr ⟨e, List.mem_range.mpr he, rfl⟩)

/-- C5: `large_margin_classification_loss` returns at each position
`max_a(logits[a] + margin_constant * 1[a ≠ expert_action]) - logits[expert_action]`,
and whenever the expert action's logit exceeds every other action's logit by
more than `margin_constant`, the per-position loss is exactly `0`. -/
theorem large_margin_classification_loss_spec (K : ℕ)
    (logits : ℕ → ℕ → ℕ → ℝ) (expert_actions : ℕ → ℕ → ℕ)
    (margin_constant : ℝ) (i t : ℕ)
    (he : expert_actions i t < K)
    (hgap : ∀ a, a < K → a ≠ expert_actions i t →
      logits i t a + margin_constant < logits i t (expert_actions i t)) :
    (large_margin_classification_loss K logits expert_actions margin_constant
        i t =
      torchMax K
          (fun a => logits i t a +
            margin_constant * (if a = expert_actions i t then 0 else 1)) -
        logits i t (expert_actions i t)) ∧
    large_margin_classification_loss K logits expert_actions margin_constant
        i t = 0 := by
  constructor
  · have hfun : (fun a => logits i t a +
        if a = expert_actions i t then 0 else margin_constant) =
        (fun a => logits i t a +
          margin_constant * (if a = expert_actions i t then 0 else 1)) := by
      funext a
      by_cases h : a = expert_actions i t
      · rw [if_pos h, if_pos h]
        ring
      · rw [if_neg h, if_neg h]
        ring
    unfold large_margin_classification_loss
    rw [hfun]
  · unfold large_margin_classification_loss
    have hmax : torchMax K
        (fun a => logits i t a +
          if a = expert_actions i t then 0 else margin_constant) =
        logits i t (expert_actions i t) := by
      have := torchMax_eq_of_max K
        (fun a => logits i t a +
          if a = expert_actions i t then 0 else margin_constant)
        (expert_actions i t) he ?_
      · simpa using this
      · intro a ha
        by_cases h : a = expert_actions i t
        · subst h
          exact le_refl _
        · show logits i t a +
              (if a = expert_actions i t then 0 else margin_constant) ≤
            logits i t (expert_actions i t) +
              (if expert_actions i t = expert_actions i t then 0
                else margin_constant)
          rw [if_neg h, if_pos rfl]
          have := hgap a ha h
          linarith
    rw [hmax, sub_self]

/-- Witness for C5: `K = 2`, expert action `0` with logit `10`, other logit
`0`, margin constant `1`. -/
theorem large_margin_classification_loss_spec_witness :
    ((fun _ _ : ℕ => 0) 0 0 < 2 ∧
      ∀ a, a < 2 → a ≠ 0 →
        (fun _ _ a : ℕ => if a = 0 then (10 : ℝ) else 0) 0 0 a + 1 <
          (fun _ _ a : ℕ => if a = 0 then (10 : ℝ) else 0) 0 0 0) ∧
    large_margin_classification_loss 2
        (fun _ _ a => if a = 0 then (10 : ℝ) else 0) (fun _ _ => 0) 1 0 0 = 0 := by
  have hgap : ∀ a, a < 2 → a ≠ 0 →
      (fun _ _ a : ℕ => if a = 0 then (10 : ℝ) else 0) 0 0 a + 1 <
        (fun _ _ a : ℕ => if a = 0 then (10 : ℝ) else 0) 0 0 0 := by
    intro a _ ha
    simp only [if_neg ha, if_pos rfl]
    norm_num
  exact ⟨⟨by decide, hgap⟩,
    (large_margin_classification_loss_spec 2
      (fun _ _ a => if a = 0 then (10 : ℝ) else 0) (fun _ _ => 0) 1 0 0
      (by decide) hgap).2⟩

/-- C7 (code bug): with `target_update_method = "copy"`, every call to `step`
— whatever the step number — raises `AttributeError` instead of ever
hard-copying the target parameters, because `__init__` never assigns the
`self.target_sync_steps` attribute that `step` reads. -/
theorem step_copy_raises_attribute_error (modelParams : List ℝ)
    (target_model : Option (List ℝ)) (lr : ℝ) (step : ℕ) :
    step_target_sync
        (SoftQLearningTrainer_init modelParams target_model (some "copy") lr)
        step = Except.error PyError.attributeError := by
  rfl

mutual
theorem readObj_congr : ∀ (o : PyObj) (h1 h2 : Heap),
    (∀ j, usesIdObj o j = true → h1 j = h2 j) → readObj o h1 = readObj o h2
  | PyObj.tensor id, h1, h2, hag => by
    have : h1 id = h2 id := hag id (by simp [usesIdObj])
    simp only [readObj, this]
  | PyObj.intVal _, _, _, _ => rfl
  | PyObj.floatVal _, _, _, _ => rfl
  | PyObj.strVal _, _, _, _ => rfl
  | PyObj.boolVal _, _, _, _ => rfl
  | PyObj.noneVal, _, _, _ => rfl
  | PyObj.listVal xs, h1, h2, hag => by
    simp only [readObj]
    rw [readList_congr xs h1 h2 (fun j hj => hag j hj)]
  | PyObj.dictVal xs, h1, h2, hag => by
    simp only [readObj]
    rw [readDict_congr xs h1 h2 (fun j hj => hag j hj)]
theorem readList_congr : ∀ (l : PyList) (h1 h2 : Heap),
    (∀ j, usesIdList l j = true → h1 j = h2 j) → readList l h1 = readList l h2
  | PyList.nil, _, _, _ => rfl
  | PyList.cons x xs, h1, h2, hag => by
    simp only [readList]
    rw [readObj_congr x h1 h2
        (fun j hj => hag j (by simp [usesIdList, hj])),
      readList_congr xs h1 h2 (fun j hj => hag j (by simp [usesIdList, hj]))]
theorem readDict_congr : ∀ (d : PyDict) (h1 h2 : Heap),
    (∀ j, usesIdDict d j = true → h1 j = h2 j) → readDict d h1 = readDict d h2
  | PyDict.dnil, _, _, _ => rfl
  | PyDict.dcons k v xs, h1, h2, hag => by
    simp only [readDict]
    rw [readObj_congr v h1 h2
        (fun j hj => hag j (by simp [usesIdDict, hj])),
      readDict_congr xs h1 h2 (fun j hj => hag j (by simp [usesIdDict, hj]))]
end

mutual
theorem idsBelowObj_usesId_lt : ∀ (o : PyObj) (c j : ℕ),
    idsBelowObj o c = true → usesIdObj o j = true → j < c
  | PyObj.tensor id, c, j, hb, hu => by
    have hb' : id < c := by simpa [idsBelowObj] using hb
    have hu' : id = j := by simpa [usesIdObj] using hu
    omega
  | PyObj.intVal _, _, _, _, hu => by simp [usesIdObj] at hu
  | PyObj.floatVal _, _, _, _, hu => by simp [usesIdObj] at hu
  | PyObj.strVal _, _, _, _, hu => by simp [usesIdObj] at hu
  | PyObj.boolVal _, _, _, _, hu => by simp [usesIdObj] at hu
  | PyObj.noneVal, _, _, _, hu => by simp [usesIdObj] at hu
  | PyObj.listVal xs, c, j, hb, hu =>
    idsBelowList_usesId_lt xs c j hb hu
  | PyObj.dictVal xs, c, j, hb, hu =>
    idsBelowDict_usesId_lt xs c j hb hu
theorem idsBelowList_usesId_lt : ∀ (l : PyList) (c j : ℕ),
    idsBelowList l c = true → usesIdList l j = true → j < c
  | PyList.nil, _, _, _, hu => by simp [usesIdList] at hu
  | PyList.cons x xs, c, j, hb, hu => by
    have hb' : (idsBelowObj x c && idsBelowList xs c) = true := hb
    rw [Bool.and_eq_true] at hb'
    obtain ⟨hbx, hbxs⟩ := hb'
    have hu' : (usesIdObj x j || usesIdList xs j) = true := hu
    rw [Bool.or_eq_true] at hu'
    rcases hu' with h | h
    · exact idsBelowObj_usesId_lt x c j hbx h
    · exact idsBelowList_usesId_lt xs c j hbxs h
theorem idsBelowDict_usesId_lt : ∀ (d : PyDict) (c j : ℕ),
    idsBelowDict d c = true → usesIdDict d j = true → j < c
  | PyDict.dnil, _, _, _, hu => by simp [usesIdDict] at hu
  | PyDict.dcons k v xs, c, j, hb, hu => by
    have hb' : (idsBelowObj v c && idsBelowDict xs c) = true := hb
    rw [Bool.and_eq_true] at hb'
    obtain ⟨hbv, hbxs⟩ := hb'
    have hu' : (usesIdObj v j || usesIdDict xs j) = true := hu
    rw [Bool.or_eq_true] at hu'
    rcases hu' with h | h
    · exact idsBelowObj_usesId_lt v c j hbv h
    · exact idsBelowDict_usesId_lt xs c j hbxs h
end

mutual
theorem idsBelowObj_mono : ∀ (o : PyObj) (c c' : ℕ),
    c ≤ c' → idsBelowObj o c = true → idsBelowObj o c' = true
  | PyObj.tensor id, c, c', hc, hb => by
    have : id < c := by simpa [idsBelowObj] using hb
    simp [idsBelowObj]
    omega
  | PyObj.intVal _, _, _, _, _ => rfl
  | PyObj.floatVal _, _, _, _, _ => rfl
  | PyObj.strVal _, _, _, _, _ => rfl
  | PyObj.boolVal _, _, _, _, _ => rfl
  | PyObj.noneVal, _, _, _, _ => rfl
  | PyObj.listVal xs, c, c', hc, hb => idsBelowList_mono xs c c' hc hb
  | PyObj.dictVal xs, c, c', hc, hb => idsBelowDict_mono xs c c' hc hb
theorem idsBelowList_mono : ∀ (l : PyList) (c c' : ℕ),
    c ≤ c' → idsBelowList l c = true → idsBelowList l c' = true
  | PyList.nil, _, _, _, _ => rfl
  | PyList.cons x xs, c, c', hc, hb => by
    have hb' : (idsBelowObj x c && idsBelowList xs c) = true := hb
    rw [Bool.and_eq_true] at hb'
    obtain ⟨hbx, hbxs⟩ := hb'
    have g1 := idsBelowObj_mono x c c' hc hbx
    have g2 := idsBelowList_mono xs c c' hc hbxs
    show (idsBelowObj x c' && idsBelowList xs c') = true
    rw [g1, g2]
    rfl
theorem idsBelowDict_mono : ∀ (d : PyDict) (c c' : ℕ),
    c ≤ c' → idsBelowDict d c = true → idsBelowDict d c' = true
  | PyDict.dnil, _, _, _, _ => rfl
  | PyDict.dcons k v xs, c, c', hc, hb => by
    have hb' : (idsBelowObj v c && idsBelowDict xs c) = true := hb
    rw [Bool.and_eq_true] at hb'
    obtain ⟨hbv, hbxs⟩ := hb'
    have g1 := idsBelowObj_mono v c c' hc hbv
    have g2 := idsBelowDict_mono xs c c' hc hbxs
    show (idsBelowObj v c' && idsBelowDict xs c') = true
    rw [g1, g2]
    rfl
end

mutual
theorem cloneObj_spec : ∀ (o : PyObj) (h : Heap) (c : ℕ),
    idsBelowObj o c = true →
    (c ≤ (cloneObj o h c).2.2 ∧
      (∀ j, j < c → (cloneObj o h c).2.1 j = h j)) ∧
    (∀ j, usesIdObj (cloneObj o h c).1 j = true →
      c ≤ j ∧ j < (cloneObj o h c).2.2) ∧
    readObj (cloneObj o h c).1 (cloneObj o h c).2.1 = readObj o h
  | PyObj.tensor id, h, c, hb => by
    refine ⟨⟨Nat.le_succ c, ?_⟩, ?_, ?_⟩
    · intro j hj
      exact Function.update_noteq (show j ≠ c by omega) (h id) h
    · intro j hj
      have hcj : c = j := by simpa [cloneObj, usesIdObj] using hj
      show c ≤ j ∧ j < c + 1
      omega
    · show readObj (PyObj.tensor c) (Function.update h c (h id)) =
        readObj (PyObj.tensor id) h
      simp only [readObj, Function.update_same]
  | PyObj.intVal n, h, c, hb => by
    refine ⟨⟨le_refl c, fun j hj => rfl⟩, fun j hj => ?_, rfl⟩
    simp [cloneObj, usesIdObj] at hj
  | PyObj.floatVal x, h, c, hb => by
    refine ⟨⟨le_refl c, fun j hj => rfl⟩, fun j hj => ?_, rfl⟩
    simp [cloneObj, usesIdObj] at hj
  | PyObj.strVal s, h, c, hb => by
    refine ⟨⟨le_refl c, fun j hj => rfl⟩, fun j hj => ?_, rfl⟩
    simp [cloneObj, usesIdObj] at hj
  | PyObj.boolVal b, h, c, hb => by
    refine ⟨⟨le_refl c, fun j hj => rfl⟩, fun j hj => ?_, rfl⟩
    simp [cloneObj, usesIdObj] at hj
  | PyObj.noneVal, h, c, hb => by
    refine ⟨⟨le_refl c, fun j hj => rfl⟩, fun j hj => ?_, rfl⟩
    simp [cloneObj, usesIdObj] at hj
  | PyObj.listVal xs, h, c, hb => by
    have hb' : idsBelowList xs c = true := hb
    obtain ⟨⟨le1, pres1⟩, range1, read1⟩ := cloneList_spec xs h c hb'
    refine ⟨⟨le1, pres1⟩, fun j hj => range1 j hj, ?_⟩
    show readObj (PyObj.listVal (cloneList xs h c).1)
        (cloneList xs h c).2.1 = readObj (PyObj.listVal xs) h
    simp only [readObj]
    rw [read1]
  | PyObj.dictVal xs, h, c, hb => by
    have hb' : idsBelowDict xs c = true := hb
    obtain ⟨⟨le1, pres1⟩, range1, read1⟩ := cloneDict_spec xs h c hb'
    refine ⟨⟨le1, pres1⟩, fun j hj => range1 j hj, ?_⟩
    show readObj (PyObj.dictVal (cloneDict xs h c).1)
        (cloneDict xs h c).2.1 = readObj (PyObj.dictVal xs) h
    simp only [readObj]
    rw [read1]
theorem cloneList_spec : ∀ (l : PyList) (h : Heap) (c : ℕ),
    idsBelowList l c = true →
    (c ≤ (cloneList l h c).2.2 ∧
      (∀ j, j < c → (cloneList l h c).2.1 j = h j)) ∧
    (∀ j, usesIdList (cloneList l h c).1 j = true →
      c ≤ j ∧ j < (cloneList l h c).2.2) ∧
    readList (cloneList l h c).1 (cloneList l h c).2.1 = readList l h
  | PyList.nil, h, c, hb => by
    refine ⟨⟨le_refl c, fun j hj => rfl⟩, fun j hj => ?_, rfl⟩
    simp [cloneList, usesIdList] at hj
  | PyList.cons x xs, h, c, hb => by
    have hb' : (idsBelowObj x c && idsBelowList xs c) = true := hb
    rw [Bool.and_eq_true] at hb'
    obtain ⟨hbx, hbxs⟩ := hb'
    obtain ⟨⟨le1, pres1⟩, range1, read1⟩ := cloneObj_spec x h c hbx
    obtain ⟨⟨le2, pres2⟩, range2, read2⟩ :=
      cloneList_spec xs (cloneObj x h c).2.1 (cloneObj x h c).2.2
        (idsBelowList_mono xs c (cloneObj x h c).2.2 le1 hbxs)
    refine ⟨⟨le_trans le1 le2, ?_⟩, ?_, ?_⟩
    · intro j hj
      show (cloneList xs (cloneObj x h c).2.1 (cloneObj x h c).2.2).2.1 j =
        h j
      rw [pres2 j (lt_of_lt_of_le hj le1), pres1 j hj]
    · intro j hj
      have hj' : (usesIdObj (cloneObj x h c).1 j ||
          usesIdList (cloneList xs (cloneObj x h c).2.1
            (cloneObj x h c).2.2).1 j) = true := hj
      rw [Bool.or_eq_true] at hj'
      rcases hj' with hcase | hcase
      · rcases range1 j hcase with ⟨g1, g2⟩
        exact ⟨g1, lt_of_lt_of_le g2 le2⟩
      · rcases range2 j hcase with ⟨g1, g2⟩
        exact ⟨le_trans le1 g1, g2⟩
    · show readList
          (PyList.cons (cloneObj x h c).1
            (cloneList xs (cloneObj x h c).2.1 (cloneObj x h c).2.2).1)
          (cloneList xs (cloneObj x h c).2.1 (cloneObj x h c).2.2).2.1 =
        readList (PyList.cons x xs) h
      simp only [readList]
      have e1 : readObj (cloneObj x h c).1
          (cloneList xs (cloneObj x h c).2.1 (cloneObj x h c).2.2).2.1 =
          readObj x h := by
        have step1 : readObj (cloneObj x h c).1
            (cloneList xs (cloneObj x h c).2.1 (cloneObj x h c).2.2).2.1 =
            readObj (cloneObj x h c).1 (cloneObj x h c).2.1 :=
          readObj_congr _ _ _ (fun i hi => pres2 i (range1 i hi).2)
        rw [step1, read1]
      have e2 : readList
          (cloneList xs (cloneObj x h c).2.1 (cloneObj x h c).2.2).1
          (cloneList xs (cloneObj x h c).2.1 (cloneObj x h c).2.2).2.1 =
          readList xs h := by
        rw [read2]
        exact readList_congr _ _ _
          (fun i hi => pres1 i (idsBelowList_usesId_lt xs c i hbxs hi))
      rw [e1, e2]
theorem cloneDict_spec : ∀ (d : PyDict) (h : Heap) (c : ℕ),
    idsBelowDict d c = true →
    (c ≤ (cloneDict d h c).2.2 ∧
      (∀ j, j < c → (cloneDict d h c).2.1 j = h j)) ∧
    (∀ j, usesIdDict (cloneDict d h c).1 j = true →
      c ≤ j ∧ j < (cloneDict d h c).2.2) ∧
    readDict (cloneDict d h c).1 (cloneDict d h c).2.1 = readDict d h
  | PyDict.dnil, h, c, hb => by
    refine ⟨⟨le_refl c, fun j hj => rfl⟩, fun j hj => ?_, rfl⟩
    simp [cloneDict, usesIdDict] at hj
  | PyDict.dcons k v xs, h, c, hb => by
    have hb' : (idsBelowObj v c && idsBelowDict xs c) = true := hb
    rw [Bool.and_eq_true] at hb'
    obtain ⟨hbv, hbxs⟩ := hb'
    obtain ⟨⟨le1, pres1⟩, range1, read1⟩ := cloneObj_spec v h c hbv
    obtain ⟨⟨le2, pres2⟩, range2, read2⟩ :=
      cloneDict_spec xs (cloneObj v h c).2.1 (cloneObj v h c).2.2
        (idsBelowDict_mono xs c (cloneObj v h c).2.2 le1 hbxs)
    refine ⟨⟨le_trans le1 le2, ?_⟩, ?_, ?_⟩
    · intro j hj
      show (cloneDict xs (cloneObj v h c).2.1 (cloneObj v h c).2.2).2.1 j =
        h j
      rw [pres2 j (lt_of_lt_of_le hj le1), pres1 j hj]
    · intro j hj
      have hj' : (usesIdObj (cloneObj v h c).1 j ||
          usesIdDict (cloneDict xs (cloneObj v h c).2.1
            (cloneObj v h c).2.2).1 j) = true := hj
      rw [Bool.or_eq_true] at hj'
      rcases hj' with hcase | hcase
      · rcases range1 j hcase with ⟨g1, g2⟩
        exact ⟨g1, lt_of_lt_of_le g2 le2⟩
      · rcases range2 j hcase with ⟨g1, g2⟩
        exact ⟨le_trans le1 g1, g2⟩
    · show readDict
          (PyDict.dcons k (cloneObj v h c).1
            (cloneDict xs (cloneObj v h c).2.1 (cloneObj v h c).2.2).1)
          (cloneDict xs (cloneObj v h c).2.1 (cloneObj v h c).2.2).2.1 =
        readDict (PyDict.dcons k v xs) h
      simp only [readDict]
      have e1 : readObj (cloneObj v h c).1
          (cloneDict xs (cloneObj v h c).2.1 (cloneObj v h c).2.2).2.1 =
          readObj v h := by
        have step1 : readObj (cloneObj v h c).1
            (cloneDict xs (cloneObj v h c).2.1 (cloneObj v h c).2.2).2.1 =
            readObj (cloneObj v h c).1 (cloneObj v h c).2.1 :=
          readObj_congr _ _ _ (fun i hi => pres2 i (range1 i hi).2)
        rw [step1, read1]
      have e2 : readDict
          (cloneDict xs (cloneObj v h c).2.1 (cloneObj v h c).2.2).1
          (cloneDict xs (cloneObj v h c).2.1 (cloneObj v h c).2.2).2.1 =
          readDict xs h := by
        rw [read2]
        exact readDict_congr _ _ _
          (fun i hi => pres1 i (idsBelowDict_usesId_lt xs c i hbxs hi))
      rw [e1, e2]
end

/-- C9: `nested_detach_and_clone` (with valid flags) applied to a nested
structure of dicts with string keys, lists, tensors, scalars, booleans,
strings and `None` succeeds and returns a structurally identical result — the
same tree shape, keys and values, read through the heap — that shares no
tensor storage with the original: every storage id used by the clone is absent
from the source, and mutating (updating the heap at) any storage used by the
clone leaves the source's readout unchanged. -/
theorem nested_detach_and_clone_spec (o : PyObj) (h : Heap) (c : ℕ)
    (hb : idsBelowObj o c = true) :
    nested_detach_and_clone o h c true false = Except.ok (cloneObj o h c) ∧
    readObj (cloneObj o h c).1 (cloneObj o h c).2.1 = readObj o h ∧
    (∀ j, usesIdObj (cloneObj o h c).1 j = true → usesIdObj o j = false) ∧
    (∀ j v, usesIdObj (cloneObj o h c).1 j = true →
      readObj o (Function.update (cloneObj o h c).2.1 j v) = readObj o h) := by
  obtain ⟨⟨hle, hpres⟩, hrange, hread⟩ := cloneObj_spec o h c hb
  refine ⟨rfl, hread, ?_, ?_⟩
  · intro j hj
    cases hx : usesIdObj o j
    · rfl
    · have hjc := idsBelowObj_usesId_lt o c j hb hx
      have := (hrange j hj).1
      omega
  · intro j v hj
    have hcj := (hrange j hj).1
    apply readObj_congr
    intro i hi
    have hic := idsBelowObj_usesId_lt o c i hb hi
    rw [Function.update_noteq (show i ≠ j by omega) v (cloneObj o h c).2.1]
    exact hpres i hic

/-- Witness for C9: the dict `{"a": tensor(storage 0), "b": [3, None]}`,
cloned with allocation counter `1` over the heap that maps every storage to
`[1, 2]`. -/
theorem nested_detach_and_clone_spec_witness :
    idsBelowObj (PyObj.dictVal (PyDict.dcons "a" (PyObj.tensor 0)
        (PyDict.dcons "b" (PyObj.listVal (PyList.cons (PyObj.intVal 3)
          (PyList.cons PyObj.noneVal PyList.nil))) PyDict.dnil))) 1 = true ∧
    readObj (cloneObj (PyObj.dictVal (PyDict.dcons "a" (PyObj.tensor 0)
          (PyDict.dcons "b" (PyObj.listVal (PyList.cons (PyObj.intVal 3)
            (PyList.cons PyObj.noneVal PyList.nil))) PyDict.dnil)))
          (fun _ => [1, 2]) 1).1
        (cloneObj (PyObj.dictVal (PyDict.dcons "a" (PyObj.tensor 0)
          (PyDict.dcons "b" (PyObj.listVal (PyList.cons (PyObj.intVal 3)
            (PyList.cons PyObj.noneVal PyList.nil))) PyDict.dnil)))
          (fun _ => [1, 2]) 1).2.1 =
      readObj (PyObj.dictVal (PyDict.dcons "a" (PyObj.tensor 0)
          (PyDict.dcons "b" (PyObj.listVal (PyList.cons (PyObj.intVal 3)
            (PyList.cons PyObj.noneVal PyList.nil))) PyDict.dnil)))
        (fun _ => [1, 2]) := by
  have hb : idsBelowObj (PyObj.dictVal (PyDict.dcons "a" (PyObj.tensor 0)
      (PyDict.dcons "b" (PyObj.listVal (PyList.cons (PyObj.intVal 3)
        (PyList.cons PyObj.noneVal PyList.nil))) PyDict.dnil))) 1 = true := by
    decide
  exact ⟨hb, (nested_detach_and_clone_spec (PyObj.dictVal (PyDict.dcons "a"
    (PyObj.tensor 0) (PyDict.dcons "b" (PyObj.listVal (PyList.cons
      (PyObj.intVal 3) (PyList.cons PyObj.noneVal PyList.nil))) PyDict.dnil)))
    (fun _ => [1, 2]) 1 hb).2.1⟩